import Mathlib

/-!
Verification of the Observer / Watcher subsystem of the learnVue repository.

The definitions below are a shallow embedding of
src/vue-src/core/observer/watcher.js and src/vue-src/core/util/error.js.
JavaScript values are modelled by the inductive type JsValue (objects and
arrays are compared by reference identity, carried as a numeric id).
Dependency subjects (the Dep class lives outside src, so its subscribe and
unsubscribe operations are modelled from the spec, section 4.1) are indexed
by their numeric id; the global environment DepEnv maps each dep id to its
subscriber list and to an instrumentation counter of addSub invocations.
A getter invocation is summarised by a GetterSpec: the list of dep ids it
reads, the dep ids a deep traversal of its result would read, and its
result (none models a thrown exception).
-/

/-- Model of a JavaScript value as seen by the watcher: scalars carry their
value, objects and arrays carry a reference identity. -/
inductive JsValue
  | undef
  | null
  | boolV (b : Bool)
  | numV (n : Int)
  | nan
  | strV (s : String)
  | obj (ref : Nat)
  | arr (ref : Nat)
deriving DecidableEq, Repr

/-- JavaScript strict equality (the === operator) on modelled values.
NaN is not strictly equal to anything, including itself; objects and
arrays compare by reference identity. -/
def strictEq : JsValue → JsValue → Bool
  | JsValue.undef, JsValue.undef => true
  | JsValue.null, JsValue.null => true
  | JsValue.boolV a, JsValue.boolV b => a == b
  | JsValue.numV a, JsValue.numV b => a == b
  | JsValue.strV a, JsValue.strV b => a == b
  | JsValue.obj a, JsValue.obj b => a == b
  | JsValue.arr a, JsValue.arr b => a == b
  | _, _ => false

/-- Modelled from the spec: isObject from core/util (not under src) holds of
object/collection-shaped values, i.e. non-null values of typeof object. -/
def isObject : JsValue → Bool
  | JsValue.obj _ => true
  | JsValue.arr _ => true
  | _ => false

/-- Global dependency environment: for each dep id, the ordered subscriber
list (watcher ids), plus an instrumentation counter of how many times
addSub has been invoked on that dep. -/
structure DepEnv where
  subs : Nat → List Nat
  subCalls : Nat → Nat

namespace Dep

/-- Modelled from the spec, section 4.1: Dep.addSub (dep.js is not under
src) adds the watcher to the subscriber list if absent, no-op if present.
The subCalls counter records the invocation either way. -/
def addSub (env : DepEnv) (d : Nat) (wid : Nat) : DepEnv :=
  { subs := fun e => if e = d then
      (if wid ∈ env.subs d then env.subs d else env.subs d ++ [wid])
      else env.subs e,
    subCalls := fun e => if e = d then env.subCalls d + 1 else env.subCalls e }

/-- Modelled from the spec, section 4.1: Dep.removeSub removes the watcher
from the subscriber list (the util remove helper deletes the first
occurrence). -/
def removeSub (env : DepEnv) (d : Nat) (wid : Nat) : DepEnv :=
  { env with subs := fun e => if e = d then (env.subs d).erase wid else env.subs e }

end Dep

/-- How the getter field of a watcher was resolved at construction:
either the supplied function / successfully parsed path, or the no-op
fallback installed when parsePath failed (watcher.js lines 145-158). -/
inductive GetterKind
  | resolved
  | noopFallback
deriving DecidableEq, Repr

/-- State of one Watcher instance (watcher.js fields). deps, newDeps hold
dep ids in insertion order; depIds, newDepIds model the two id Sets. -/
structure Watcher where
  id : Nat
  deep : Bool
  user : Bool
  lazyFlag : Bool
  sync : Bool
  dirty : Bool
  active : Bool
  value : JsValue
  deps : List Nat
  newDeps : List Nat
  depIds : List Nat
  newDepIds : List Nat
  getter : GetterKind
deriving DecidableEq, Repr

/-- Behaviour of one getter invocation in the current heap state: the dep
ids read (in order), the dep ids an additional deep traversal of the
result would read, and the result (none models a thrown exception). -/
structure GetterSpec where
  reads : List Nat
  deepReads : List Nat
  result : Option JsValue
deriving DecidableEq, Repr

/-- Behaviour of the getter actually stored on the watcher: the no-op
fallback reads nothing and returns undefined; a resolved getter behaves
as the ambient GetterSpec. -/
def Watcher.getterSpec (w : Watcher) (g : GetterSpec) : GetterSpec :=
  match w.getter with
  | GetterKind.resolved => g
  | GetterKind.noopFallback => { reads := [], deepReads := [], result := some JsValue.undef }

/-- Watcher.addDep (watcher.js lines 217-229): record the dep in the
newly-observed set if unseen this evaluation, and subscribe to it only if
it was also absent from the previous dep id set. -/
def Watcher.addDep (w : Watcher) (env : DepEnv) (d : Nat) : Watcher × DepEnv :=
  if d ∈ w.newDepIds then (w, env)
  else
    let w' := { w with newDepIds := w.newDepIds ++ [d], newDeps := w.newDeps ++ [d] }
    if d ∈ w.depIds then (w', env)
    else (w', Dep.addSub env d w.id)

/-- Fold Watcher.addDep over a list of dep reads: models the sequence of
dep.depend calls fired by property getters during one evaluation. -/
def collectReads (w : Watcher) (env : DepEnv) (reads : List Nat) : Watcher × DepEnv :=
  reads.foldl (fun p d => Watcher.addDep p.1 p.2 d) (w, env)

/-- Watcher.cleanupDeps (watcher.js lines 241-260): unsubscribe from every
previous dep not re-observed, then swap the newly-observed sets into the
current ones and clear the working sets. The source walks deps with a
downward index; the removals touch distinct deps and commute, so a left
fold keeps the same effect. -/
def Watcher.cleanupDeps (w : Watcher) (env : DepEnv) : Watcher × DepEnv :=
  let env' := w.deps.foldl
    (fun e d => if d ∈ w.newDepIds then e else Dep.removeSub e d w.id) env
  ({ w with depIds := w.newDepIds, newDepIds := [],
            deps := w.newDeps, newDeps := [] }, env')

/-- Instrumented global run state: the dep environment, the active-watcher
target stack (pushTarget / popTarget), and counters for getter
invocations, change-callback invocations (with their new/old argument
pairs), handleError invocations and non-fatal warnings. -/
structure RunState where
  env : DepEnv
  targetStack : List Nat
  getterCalls : Nat
  cbCalls : List (JsValue × JsValue)
  handled : Nat
  warnings : Nat

/-- Tail of Watcher.get after the getter produced a value: deep traversal
reads (only when deep and the value is object shaped, since traverse
returns immediately on non-objects), popTarget, cleanupDeps, return. -/
def finishGet (w1 : Watcher) (s1 : RunState) (value : JsValue) (spec : GetterSpec) :
    Except (Watcher × RunState) (JsValue × Watcher × RunState) :=
  let wd := if w1.deep && isObject value then collectReads w1 s1.env spec.deepReads
            else (w1, s1.env)
  let s2 := { s1 with env := wd.2, targetStack := s1.targetStack.tail }
  let wc := Watcher.cleanupDeps wd.1 s2.env
  Except.ok (value, wc.1, { s2 with env := wc.2 })

/-- Watcher.get (watcher.js lines 175-211): pushTarget, invoke the getter
(wrapped in try/catch only for user watchers, where a throw is routed to
handleError and the value stays undefined), deep-traverse, popTarget,
cleanupDeps. A throw from a non-user getter propagates: the error branch
carries the state at the throw point, with the target stack not popped
and the dependency sets not reconciled. -/
def Watcher.get (w : Watcher) (s : RunState) (g : GetterSpec) :
    Except (Watcher × RunState) (JsValue × Watcher × RunState) :=
  let spec := w.getterSpec g
  let s0 : RunState := { s with targetStack := w.id :: s.targetStack,
                                getterCalls := s.getterCalls + 1 }
  let wc := collectReads w s0.env spec.reads
  match spec.result with
  | some value => finishGet wc.1 { s0 with env := wc.2 } value spec
  | none =>
      if w.user then
        finishGet wc.1 { s0 with env := wc.2, handled := s0.handled + 1 }
          JsValue.undef spec
      else
        Except.error (wc.1, { s0 with env := wc.2 })

/-- Watcher.run (watcher.js lines 292-330): no-op when inactive; otherwise
re-evaluate via get, and when the new value differs by strict inequality,
or is object shaped, or the watcher is deep, store the new value and
invoke the callback with (new, old). cbOk models whether the callback
returns normally; a throwing user callback is routed to handleError, a
throwing non-user callback propagates. -/
def Watcher.run (w : Watcher) (s : RunState) (g : GetterSpec) (cbOk : Bool) :
    Except (Watcher × RunState) (Watcher × RunState) :=
  if w.active then
    match Watcher.get w s g with
    | Except.error e => Except.error e
    | Except.ok (value, w1, s1) =>
        if !strictEq value w1.value || isObject value || w1.deep then
          let oldValue := w1.value
          let w2 := { w1 with value := value }
          let s2 := { s1 with cbCalls := s1.cbCalls ++ [(value, oldValue)] }
          if cbOk then Except.ok (w2, s2)
          else if w2.user then Except.ok (w2, { s2 with handled := s2.handled + 1 })
          else Except.error (w2, s2)
        else Except.ok (w1, s1)
  else Except.ok (w, s)

/-- Modelled from the spec, section 4.5: queueWatcher (scheduler.js is not
under src) enqueues the watcher id if it is not already queued. -/
def queueWatcher (q : List Nat) (id : Nat) : List Nat :=
  if id ∈ q then q else q ++ [id]

/-- Watcher.update (watcher.js lines 271-283): if lazy, set the dirty flag
and nothing else; else if sync, run immediately; else enqueue into the
scheduler queue. There is no activity check in update itself. -/
def Watcher.update (w : Watcher) (s : RunState) (q : List Nat) (g : GetterSpec)
    (cbOk : Bool) :
    Except (Watcher × RunState × List Nat) (Watcher × RunState × List Nat) :=
  if w.lazyFlag then Except.ok ({ w with dirty := true }, s, q)
  else if w.sync then
    match Watcher.run w s g cbOk with
    | Except.error (w', s') => Except.error (w', s', q)
    | Except.ok (w', s') => Except.ok (w', s', q)
  else Except.ok (w, s, queueWatcher q w.id)

/-- Watcher.evaluate (watcher.js lines 340-343): call get, store the
result, clear the dirty flag. -/
def Watcher.evaluate (w : Watcher) (s : RunState) (g : GetterSpec) :
    Except (Watcher × RunState) (Watcher × RunState) :=
  match Watcher.get w s g with
  | Except.error e => Except.error e
  | Except.ok (v, w1, s1) => Except.ok ({ w1 with value := v, dirty := false }, s1)

/-- Owning scope: its watcher list (by id) and its destruction flag. -/
structure Vm where
  watchers : List Nat
  isBeingDestroyed : Bool
deriving DecidableEq, Repr

/-- Watcher.teardown (watcher.js lines 360-375): if active, remove self
from the owning scope watcher list unless the scope is being destroyed,
unsubscribe from every current dep (the source walks deps with a downward
index; the commuting removals become a left fold), mark inactive;
otherwise do nothing. -/
def Watcher.teardown (w : Watcher) (vm : Vm) (env : DepEnv) :
    Watcher × Vm × DepEnv :=
  if w.active then
    let vm' := if vm.isBeingDestroyed then vm
               else { vm with watchers := vm.watchers.erase w.id }
    let env' := w.deps.foldl (fun e d => Dep.removeSub e d w.id) env
    ({ w with active := false }, vm', env')
  else (w, vm, env)

/-- Watcher constructor options (deep, user, lazy, sync). -/
structure WOptions where
  deep : Bool
  user : Bool
  lazyFlag : Bool
  sync : Bool
deriving DecidableEq, Repr

/-- The expression-or-function argument of the watcher constructor; path
expression strings are modelled by numeric ids. -/
inductive ExpOrFn
  | fn
  | path (p : Nat)
deriving DecidableEq, Repr

/-- The deep flag of an optional options record (false when absent). -/
def optDeep : Option WOptions → Bool
  | some o => o.deep
  | none => false

/-- The user flag of an optional options record (false when absent). -/
def optUser : Option WOptions → Bool
  | some o => o.user
  | none => false

/-- The lazy flag of an optional options record (false when absent). -/
def optLazy : Option WOptions → Bool
  | some o => o.lazyFlag
  | none => false

/-- The sync flag of an optional options record (false when absent). -/
def optSync : Option WOptions → Bool
  | some o => o.sync
  | none => false

/-- Result of a successful watcher construction. -/
structure MkResult where
  watcher : Watcher
  vm : Vm
  uid : Nat
  state : RunState

/-- Watcher constructor (watcher.js lines 111-165): push onto the scope
watcher list, read the option flags, assign the next uid, start active
with dirty equal to lazy and empty dep sets; resolve the getter, falling
back to a no-op plus a dev-mode warning when the path does not parse;
finally evaluate once via get unless lazy. parse abstracts parsePath
(core/util, not under src): true means the path parses. A throwing
non-user initial getter propagates out of the constructor. -/
def mkWatcher (parse : Nat → Bool) (dev : Bool) (vm : Vm) (expOrFn : ExpOrFn)
    (opts : Option WOptions) (uid : Nat) (s : RunState) (g : GetterSpec) :
    Except (Watcher × Vm × Nat × RunState) MkResult :=
  let deep := optDeep opts
  let user := optUser opts
  let lz := optLazy opts
  let sync := optSync opts
  let id := uid + 1
  let vm1 := { vm with watchers := vm.watchers ++ [id] }
  let gk := match expOrFn with
    | ExpOrFn.fn => GetterKind.resolved
    | ExpOrFn.path p => if parse p then GetterKind.resolved else GetterKind.noopFallback
  let warns : Nat := match expOrFn with
    | ExpOrFn.fn => 0
    | ExpOrFn.path p => if parse p then 0 else (if dev then 1 else 0)
  let w0 : Watcher :=
    { id := id, deep := deep, user := user, lazyFlag := lz, sync := sync,
      dirty := lz, active := true, value := JsValue.undef,
      deps := [], newDeps := [], depIds := [], newDepIds := [], getter := gk }
  let s0 := { s with warnings := s.warnings + warns }
  if lz then Except.ok ⟨w0, vm1, id, s0⟩
  else
    match Watcher.get w0 s0 g with
    | Except.error (w', s') => Except.error (w', vm1, id, s')
    | Except.ok (v, w1, s1) => Except.ok ⟨{ w1 with value := v }, vm1, id, s1⟩

/-- A node of the modelled JavaScript heap: a leaf (non-object, non-array
value), or an object/array container carrying the dep id of its observer
if it is observed, its extensibility flag, and the heap addresses of its
elements/property values. The source walks arrays by index and plain
objects by key; both walks visit exactly the child values, so one
container case carries them uniformly (the source loops run by downward
index; the children list is read in order here, which only permutes the
visiting order of siblings). -/
inductive HNode
  | scalar
  | container (obId : Option Nat) (extensible : Bool) (children : List Nat)
deriving DecidableEq, Repr

/-- Heap lookup; a dangling address reads as a leaf. -/
def lookupNode (h : List HNode) (a : Nat) : HNode := h.getD a HNode.scalar

mutual

/-- One call of the recursive walk of traverse (watcher.js _traverse),
with explicit fuel bounding the call depth (none models non-termination
of the source recursion within the given depth): leaves and
non-extensible values return at once; an observed container whose dep id
is already in seen returns at once, otherwise the id is recorded and the
children are visited. -/
def travGo (h : List HNode) (fuel : Nat) (a : Nat) (seen : List Nat) :
    Option (List Nat) :=
  match fuel with
  | 0 => none
  | fuel' + 1 =>
      match lookupNode h a with
      | HNode.scalar => some seen
      | HNode.container obId ext children =>
          if ext = false then some seen
          else
            match obId with
            | some d =>
                if d ∈ seen then some seen
                else travKids h fuel' children (d :: seen)
            | none => travKids h fuel' children seen
termination_by (fuel, 0)

/-- The child loop of the recursive walk, threading the seen set. -/
def travKids (h : List HNode) (fuel : Nat) (cs : List Nat) (seen : List Nat) :
    Option (List Nat) :=
  match cs with
  | [] => some seen
  | c :: cs' =>
      match travGo h fuel c seen with
      | none => none
      | some s1 => travKids h fuel cs' s1
termination_by (fuel, cs.length + 1)

end

/-- traverse (watcher.js lines 386-390): clear the process-wide seen set
(whose prior content priorSeen is discarded), then walk from the root. -/
def traverseTop (h : List HNode) (fuel : Nat) (a : Nat) (priorSeen : List Nat) :
    Option (List Nat) :=
  travGo h fuel a []

/-- The observer dep ids occurring in the heap. -/
def obIdsOf (h : List HNode) : List Nat :=
  h.filterMap (fun n => match n with
    | HNode.container (some d) _ _ => some d
    | _ => none)

/-- Every container node of the heap is wrapped by an observer. -/
def AllObserved (h : List HNode) : Prop :=
  ∀ ob ext ch, HNode.container ob ext ch ∈ h → ob.isSome

/-- Number of heap observer ids not yet in the seen set. -/
def remIds (h : List HNode) (seen : List Nat) : Nat :=
  ((obIdsOf h).toFinset.filter (fun d => d ∉ seen)).card

/-- Configuration visible to handleError (core/util/error.js): whether a
global errorHandler is configured, whether the code runs in a browser,
whether a console object exists, and dev mode. -/
structure ErrCfg where
  hasErrorHandler : Bool
  inBrowser : Bool
  consoleDefined : Bool
  dev : Bool
deriving DecidableEq, Repr

/-- Observable outcome of one handleError call: the (error, scope, label)
triples passed to the configured handler (labels modelled by numeric ids),
whether a dev warning was emitted, whether console.error logged the
error, and the re-raised error if any. -/
structure ErrOutcome where
  handlerCalls : List (Nat × Nat × Nat)
  warned : Bool
  consoleLogged : Bool
  thrown : Option Nat
deriving DecidableEq, Repr

/-- handleError (core/util/error.js lines 13-27): a configured handler is
called with (err, vm, info) and nothing is thrown; otherwise warn in dev
mode, then log via console.error when in a browser with a console, else
re-throw the error. -/
def handleError (cfg : ErrCfg) (err : Nat) (vm : Nat) (info : Nat) : ErrOutcome :=
  if cfg.hasErrorHandler then
    { handlerCalls := [(err, vm, info)], warned := false,
      consoleLogged := false, thrown := none }
  else
    { handlerCalls := [],
      warned := cfg.dev,
      consoleLogged := cfg.inBrowser && cfg.consoleDefined,
      thrown := if cfg.inBrowser && cfg.consoleDefined then none else some err }

/-- Interactive context in the sense of the source guard: a browser with a
console object available. -/
def interactiveCtx (cfg : ErrCfg) : Bool :=
  cfg.inBrowser && cfg.consoleDefined

/-- The dep ids read during one evaluation of the watcher: the getter
reads followed, for a deep watcher whose value is object shaped, by the
deep-traversal reads. -/
def effectiveReads (w : Watcher) (g : GetterSpec) (v : JsValue) : List Nat :=
  (w.getterSpec g).reads ++
    (if w.deep && isObject v then (w.getterSpec g).deepReads else [])

/-- Value component of a successful get, for stating witnesses. -/
def okVal (r : Except (Watcher × RunState) (JsValue × Watcher × RunState)) : JsValue :=
  match r with
  | Except.ok (v, _, _) => v
  | Except.error _ => JsValue.undef

/-- Watcher component of a successful get, for stating witnesses. -/
def okWat (r : Except (Watcher × RunState) (JsValue × Watcher × RunState)) : Watcher :=
  match r with
  | Except.ok (_, w, _) => w
  | Except.error e => e.1

/-- State component of a successful get, for stating witnesses. -/
def okSt (r : Except (Watcher × RunState) (JsValue × Watcher × RunState)) : RunState :=
  match r with
  | Except.ok (_, _, s) => s
  | Except.error e => e.2

/-- Result pair of run, for stating witnesses and counterexamples. -/
def okRun (r : Except (Watcher × RunState) (Watcher × RunState)) : Watcher × RunState :=
  match r with
  | Except.ok p => p
  | Except.error p => p

/-- Result triple of update, for stating witnesses and counterexamples. -/
def okUpd (r : Except (Watcher × RunState × List Nat) (Watcher × RunState × List Nat)) :
    Watcher × RunState × List Nat :=
  match r with
  | Except.ok p => p
  | Except.error p => p

/-- The fields of a watcher that dependency collection never touches. -/
def coreOf (w : Watcher) : Nat × Bool × Bool × Bool × Bool × Bool × Bool × JsValue × GetterKind :=
  (w.id, w.deep, w.user, w.lazyFlag, w.sync, w.dirty, w.active, w.value, w.getter)

/-- Empty dependency environment, used by concrete witnesses. -/
def env0 : DepEnv := ⟨fun _ => [], fun _ => 0⟩

/-- Fresh run state, used by concrete witnesses. -/
def rs0 : RunState := ⟨env0, [], 0, [], 0, 0⟩

/-- A getter behaviour reading nothing and returning 1. -/
def g0 : GetterSpec := ⟨[], [], some (JsValue.numV 1)⟩

/-- A lazy watcher (dirty, active, no deps), used by the C3 witness. -/
def wLazy : Watcher :=
  ⟨1, false, false, true, false, true, true, JsValue.undef, [], [], [], [], GetterKind.resolved⟩

/-- A torn-down (inactive) lazy watcher whose dirty flag is clear. -/
def wDead : Watcher :=
  ⟨2, false, false, true, false, false, false, JsValue.undef, [], [], [], [], GetterKind.resolved⟩

/-- A torn-down sync watcher, used by the C4 witness. -/
def wDeadSync : Watcher :=
  ⟨3, false, false, false, true, false, false, JsValue.numV 0, [], [], [], [], GetterKind.resolved⟩

/-- An active non-deep scalar watcher whose stored value is NaN. -/
def wNan : Watcher :=
  ⟨4, false, false, false, false, false, true, JsValue.nan, [], [], [], [], GetterKind.resolved⟩

/-- A getter behaviour reading nothing and returning NaN. -/
def gNan : GetterSpec := ⟨[], [], some JsValue.nan⟩

/-- An active scalar watcher storing 1, used by the C2 witness. -/
def wNum : Watcher :=
  ⟨5, false, false, false, false, false, true, JsValue.numV 1, [], [], [], [], GetterKind.resolved⟩

/-- A getter behaviour reading nothing and returning 2. -/
def gNum : GetterSpec := ⟨[], [], some (JsValue.numV 2)⟩

/-- An active user watcher, used by the C5 witness. -/
def wUser : Watcher :=
  ⟨6, false, true, false, false, false, true, JsValue.numV 0, [], [], [], [], GetterKind.resolved⟩

/-- A getter behaviour that throws. -/
def gThrow : GetterSpec := ⟨[], [], none⟩

/-- An active watcher subscribed to dep 5, used by the C6 witness. -/
def wTear : Watcher :=
  ⟨7, false, false, false, false, false, true, JsValue.undef, [5], [], [5], [], GetterKind.resolved⟩

/-- Environment in which watcher 7 subscribes to dep 5, for the C6 witness. -/
def envTear : DepEnv := ⟨fun d => if d = 5 then [7] else [], fun _ => 0⟩

/-- Scope owning exactly watcher 7, for the C6 witness. -/
def vmTear : Vm := ⟨[7], false⟩

/-- Well-formedness of a watcher and its environment between evaluations:
the working sets are empty, the dep list and dep id set agree, and the
watcher is subscribed exactly to its recorded deps, at most once each. -/
def DepInv (w : Watcher) (env : DepEnv) : Prop :=
  w.newDeps = [] ∧ w.newDepIds = [] ∧
  (∀ d, d ∈ w.depIds ↔ d ∈ w.deps) ∧
  (∀ d, w.id ∈ env.subs d ↔ d ∈ w.depIds) ∧
  (∀ d, (env.subs d).count w.id ≤ 1)

/-- Collection invariant holding after the prefix done of the dep reads of
one evaluation has been processed by addDep, relative to the watcher
state w0 and environment env0 at evaluation start. -/
def MidInv (w0 : Watcher) (env0 : DepEnv) (done : List Nat)
    (w : Watcher) (env : DepEnv) : Prop :=
  coreOf w = coreOf w0 ∧ w.deps = w0.deps ∧ w.depIds = w0.depIds ∧
  (∀ d, d ∈ w.newDepIds ↔ d ∈ done) ∧
  (∀ d, d ∈ w.newDeps ↔ d ∈ done) ∧
  w.newDeps.Nodup ∧
  (∀ d, w0.id ∈ env.subs d ↔ (d ∈ w0.depIds ∨ d ∈ done)) ∧
  (∀ d, (env.subs d).count w0.id ≤ 1) ∧
  (∀ d, env.subCalls d = env0.subCalls d +
    (if d ∈ done ∧ d ∉ w0.depIds then 1 else 0))

/-- A watcher previously depending on deps 5 and 6, for the C1 witness. -/
def wC1 : Watcher :=
  ⟨8, false, false, false, false, false, true, JsValue.undef,
    [5, 6], [], [5, 6], [], GetterKind.resolved⟩

/-- Environment in which watcher 8 subscribes to deps 5 and 6. -/
def envC1 : DepEnv :=
  ⟨fun d => if d = 5 then [8] else if d = 6 then [8] else [], fun _ => 0⟩

/-- Run state over envC1, for the C1 witness. -/
def rsC1 : RunState := ⟨envC1, [], 0, [], 0, 0⟩

/-- A getter behaviour reading dep 5 twice and dep 7 once. -/
def gC1 : GetterSpec := ⟨[5, 7, 5], [], some (JsValue.numV 3)⟩

/-- The watcher state as built by the constructor for a function getter,
before the initial evaluation: next uid, option flags, dirty iff lazy,
active, undefined value and empty dep sets. -/
def freshWatcher (opts : Option WOptions) (uid : Nat) : Watcher :=
  { id := uid + 1, deep := optDeep opts, user := optUser opts,
    lazyFlag := optLazy opts, sync := optSync opts, dirty := optLazy opts,
    active := true, value := JsValue.undef,
    deps := [], newDeps := [], depIds := [], newDepIds := [],
    getter := GetterKind.resolved }

/-- A two-container heap with a reference cycle: node 0 points to node 1
and node 1 back to node 0, both observed. -/
def heapCyc : List HNode :=
  [HNode.container (some 0) true [1], HNode.container (some 1) true [0]]

/-- A parse function on which every path fails, for the C8 witness. -/
def parseNone : Nat → Bool := fun _ => false

theorem addDep_core (w : Watcher) (env : DepEnv) (d : Nat) :
    coreOf (Watcher.addDep w env d).1 = coreOf w := by
  unfold Watcher.addDep
  by_cases h1 : d ∈ w.newDepIds
  · simp [h1]
  · by_cases h2 : d ∈ w.depIds <;> simp [h1, h2, coreOf]

theorem collectReads_core (reads : List Nat) :
    ∀ (w : Watcher) (env : DepEnv), coreOf (collectReads w env reads).1 = coreOf w := by
  induction reads with
  | nil => intro w env; rfl
  | cons r rs ih =>
      intro w env
      have hstep : collectReads w env (r :: rs)
          = collectReads (Watcher.addDep w env r).1 (Watcher.addDep w env r).2 rs := rfl
      rw [hstep, ih]
      exact addDep_core w env r

theorem cleanupDeps_core (w : Watcher) (env : DepEnv) :
    coreOf (Watcher.cleanupDeps w env).1 = coreOf w := rfl

theorem cleanupDeps_newEmpty (w : Watcher) (env : DepEnv) :
    (Watcher.cleanupDeps w env).1.newDeps = [] ∧
    (Watcher.cleanupDeps w env).1.newDepIds = [] := ⟨rfl, rfl⟩

/-- Facts about a successful get shared by several claims: the scalar
fields of the watcher survive, the working dep sets end empty, the getter
was invoked exactly once, the target stack is restored, and neither
callbacks nor warnings were produced. -/
theorem get_ok_facts {w : Watcher} {s : RunState} {g : GetterSpec}
    {v : JsValue} {w1 : Watcher} {s1 : RunState}
    (h : Watcher.get w s g = Except.ok (v, w1, s1)) :
    coreOf w1 = coreOf w ∧ w1.newDeps = [] ∧ w1.newDepIds = [] ∧
    s1.getterCalls = s.getterCalls + 1 ∧ s1.targetStack = s.targetStack ∧
    s1.cbCalls = s.cbCalls ∧ s1.warnings = s.warnings := by
  simp only [Watcher.get, finishGet] at h
  rcases hres : (w.getterSpec g).result with _ | val
  · simp only [hres] at h
    by_cases huser : w.user = true
    · rw [if_pos huser] at h
      simp only [Except.ok.injEq, Prod.mk.injEq] at h
      obtain ⟨hv, hw, hs⟩ := h
      subst hw
      subst hs
      refine ⟨?_, rfl, rfl, rfl, rfl, rfl, rfl⟩
      rw [cleanupDeps_core]
      split <;> simp only [collectReads_core]
    · rw [if_neg huser] at h
      simp at h
  · simp only [hres] at h
    simp only [Except.ok.injEq, Prod.mk.injEq] at h
    obtain ⟨hv, hw, hs⟩ := h
    subst hw
    subst hs
    refine ⟨?_, rfl, rfl, rfl, rfl, rfl, rfl⟩
    rw [cleanupDeps_core]
    split <;> simp only [collectReads_core]

/-- C9: for every error passed to handleError, a configured global handler
is invoked with the error, the owning scope and the context label and
nothing is thrown; with no handler the error is logged non-fatally via
console.error in interactive (browser with console) contexts and
re-raised in non-interactive contexts. -/
theorem claim9_error_routing (cfg : ErrCfg) (err vmid info : Nat) :
    (cfg.hasErrorHandler = true →
      (handleError cfg err vmid info).handlerCalls = [(err, vmid, info)] ∧
      (handleError cfg err vmid info).thrown = none) ∧
    (cfg.hasErrorHandler = false → interactiveCtx cfg = true →
      (handleError cfg err vmid info).consoleLogged = true ∧
      (handleError cfg err vmid info).thrown = none) ∧
    (cfg.hasErrorHandler = false → interactiveCtx cfg = false →
      (handleError cfg err vmid info).consoleLogged = false ∧
      (handleError cfg err vmid info).thrown = some err) := by
  obtain ⟨hh, hb, hc, hd⟩ := cfg
  cases hh <;> cases hb <;> cases hc <;>
    simp [handleError, interactiveCtx]

/-- Witness for C9 at a concrete configuration with a handler installed. -/
theorem claim9_witness :
    ErrCfg.hasErrorHandler ⟨true, false, false, true⟩ = true ∧
    (handleError ⟨true, false, false, true⟩ 3 5 7).handlerCalls = [(3, 5, 7)] ∧
    (handleError ⟨true, false, false, true⟩ 3 5 7).thrown = none :=
  ⟨rfl, (claim9_error_routing ⟨true, false, false, true⟩ 3 5 7).1 rfl⟩

/-- Projections of a coreOf equality to the individual watcher fields. -/
theorem coreOf_fields {w w' : Watcher} (h : coreOf w' = coreOf w) :
    w'.id = w.id ∧ w'.deep = w.deep ∧ w'.user = w.user ∧ w'.lazyFlag = w.lazyFlag ∧
    w'.sync = w.sync ∧ w'.dirty = w.dirty ∧ w'.active = w.active ∧
    w'.value = w.value ∧ w'.getter = w.getter := by
  unfold coreOf at h
  simp only [Prod.mk.injEq] at h
  exact h

/-- C3: update dispatches on the watcher mode. Lazy: only the dirty flag
is set — the state (hence getter-call and callback counters) and the
stored value are untouched and the queue is unchanged; evaluation happens
only when evaluate is called, which invokes get exactly once, stores the
result and clears the dirty flag. Sync: run is called immediately and its
outcome is the outcome of update. Otherwise: the watcher is enqueued into
the scheduler queue. -/
theorem claim3_update_dispatch (w : Watcher) (s : RunState) (q : List Nat)
    (g : GetterSpec) (cbOk : Bool) :
    (w.lazyFlag = true →
      Watcher.update w s q g cbOk = Except.ok ({ w with dirty := true }, s, q)) ∧
    (w.lazyFlag = false → w.sync = true →
      (∀ w' s', Watcher.run w s g cbOk = Except.ok (w', s') →
        Watcher.update w s q g cbOk = Except.ok (w', s', q)) ∧
      (∀ w' s', Watcher.run w s g cbOk = Except.error (w', s') →
        Watcher.update w s q g cbOk = Except.error (w', s', q))) ∧
    (w.lazyFlag = false → w.sync = false →
      Watcher.update w s q g cbOk = Except.ok (w, s, queueWatcher q w.id)) ∧
    (∀ v w1 s1, Watcher.get w s g = Except.ok (v, w1, s1) →
      Watcher.evaluate w s g = Except.ok ({ w1 with value := v, dirty := false }, s1) ∧
      s1.getterCalls = s.getterCalls + 1) := by
  refine ⟨?_, ?_, ?_, ?_⟩
  · intro hl
    simp [Watcher.update, hl]
  · intro hl hsy
    constructor <;> intro w' s' hrun <;> simp [Watcher.update, hl, hsy, hrun]
  · intro hl hsy
    simp [Watcher.update, hl, hsy]
  · intro v w1 s1 hget
    exact ⟨by simp [Watcher.evaluate, hget], (get_ok_facts hget).2.2.2.1⟩

/-- Witness for C3 on a concrete lazy watcher: update only sets dirty. -/
theorem claim3_witness :
    wLazy.lazyFlag = true ∧
    Watcher.update wLazy rs0 [] g0 true = Except.ok ({ wLazy with dirty := true }, rs0, []) :=
  ⟨rfl, (claim3_update_dispatch wLazy rs0 [] g0 true).1 rfl⟩

/-- Counterexample to C4 as stated: update does not check inactivity at
entry — on a torn-down lazy watcher it still mutates state by setting the
dirty flag, so the update is not skipped. -/
theorem claim4_counterexample :
    wDead.active = false ∧ wDead.dirty = false ∧
    (okUpd (Watcher.update wDead rs0 [] g0 true)).1.dirty = true ∧
    (okUpd (Watcher.update wDead rs0 [] g0 true)).1.active = false :=
  ⟨rfl, rfl, rfl, rfl⟩

/-- C4 (amended): inactivity is checked at run entry only. A torn-down
watcher never re-evaluates and never fires a callback: run is a complete
no-op; update does not itself check inactivity — for a lazy watcher it
still sets the dirty flag, for a sync watcher it calls run which detects
inactivity and does nothing, and otherwise it merely enqueues the watcher
(whose eventual run is a no-op). -/
theorem claim4_inactive_run_update (w : Watcher) (s : RunState) (q : List Nat)
    (g : GetterSpec) (cbOk : Bool) (h : w.active = false) :
    Watcher.run w s g cbOk = Except.ok (w, s) ∧
    (w.lazyFlag = true →
      Watcher.update w s q g cbOk = Except.ok ({ w with dirty := true }, s, q)) ∧
    (w.lazyFlag = false → w.sync = true →
      Watcher.update w s q g cbOk = Except.ok (w, s, q)) ∧
    (w.lazyFlag = false → w.sync = false →
      Watcher.update w s q g cbOk = Except.ok (w, s, queueWatcher q w.id)) := by
  refine ⟨by simp [Watcher.run, h], ?_, ?_, ?_⟩
  · intro hl
    simp [Watcher.update, hl]
  · intro hl hsy
    simp [Watcher.update, hl, hsy, Watcher.run, h]
  · intro hl hsy
    simp [Watcher.update, hl, hsy]

/-- Witness for the amended C4 on a concrete torn-down sync watcher. -/
theorem claim4_witness :
    wDeadSync.active = false ∧
    Watcher.run wDeadSync rs0 g0 true = Except.ok (wDeadSync, rs0) ∧
    Watcher.update wDeadSync rs0 [] g0 true = Except.ok (wDeadSync, rs0, []) :=
  ⟨rfl, (claim4_inactive_run_update wDeadSync rs0 [] g0 true rfl).1,
    (claim4_inactive_run_update wDeadSync rs0 [] g0 true rfl).2.2.1 rfl rfl⟩

/-- C2 (amended): when an active watcher runs and the getter returns a
value, the stored value is replaced and the change callback is invoked
with (new value, old value) exactly when the new value differs from the
stored one by strict inequality, or the value is object shaped, or the
watcher is deep; for a scalar value the callback does not fire when the
new value strictly equals the old. Because NaN differs from NaN by strict
inequality, a NaN-to-NaN re-evaluation fires the callback. -/
theorem claim2_run_fire_condition (w : Watcher) (s : RunState) (g : GetterSpec)
    (hact : w.active = true) :
    ∀ v w1 s1, Watcher.get w s g = Except.ok (v, w1, s1) →
      w1.value = w.value ∧
      ((!strictEq v w1.value || isObject v || w1.deep) = true →
        Watcher.run w s g true =
          Except.ok ({ w1 with value := v },
            { s1 with cbCalls := s1.cbCalls ++ [(v, w1.value)] })) ∧
      ((!strictEq v w1.value || isObject v || w1.deep) = false →
        Watcher.run w s g true = Except.ok (w1, s1)) := by
  intro v w1 s1 hget
  refine ⟨(coreOf_fields (get_ok_facts hget).1).2.2.2.2.2.2.2.1, ?_, ?_⟩ <;>
    intro hc <;> simp [Watcher.run, hact, hget, hc]

/-- Counterexample to C2 as stated: for a scalar, non-deep watcher whose
old and new values are both NaN, run does fire the callback (with the
pair (NaN, NaN)), because NaN is strictly unequal to NaN. -/
theorem claim2_counterexample :
    wNan.value = JsValue.nan ∧ wNan.deep = false ∧ isObject JsValue.nan = false ∧
    okVal (Watcher.get wNan rs0 gNan) = JsValue.nan ∧
    (okRun (Watcher.run wNan rs0 gNan true)).2.cbCalls = [(JsValue.nan, JsValue.nan)] :=
  ⟨rfl, rfl, rfl, rfl, rfl⟩

/-- Witness for the amended C2 on a concrete scalar change from 1 to 2. -/
theorem claim2_witness :
    wNum.active = true ∧
    (!strictEq (JsValue.numV 2) (okWat (Watcher.get wNum rs0 gNum)).value
      || isObject (JsValue.numV 2) || (okWat (Watcher.get wNum rs0 gNum)).deep) = true ∧
    Watcher.run wNum rs0 gNum true =
      Except.ok ({ okWat (Watcher.get wNum rs0 gNum) with value := JsValue.numV 2 },
        { okSt (Watcher.get wNum rs0 gNum) with cbCalls :=
            (okSt (Watcher.get wNum rs0 gNum)).cbCalls
              ++ [(JsValue.numV 2, (okWat (Watcher.get wNum rs0 gNum)).value)] }) :=
  ⟨rfl, rfl,
    ((claim2_run_fire_condition wNum rs0 gNum rfl (JsValue.numV 2)
      (okWat (Watcher.get wNum rs0 gNum)) (okSt (Watcher.get wNum rs0 gNum)) rfl).2.1 rfl)⟩

/-- C5: a throwing getter of a user watcher is caught — get still returns
(with value undefined), pops the target stack, reconciles the dependency
sets and routes the error to handleError; a throwing getter of a non-user
watcher propagates out of get. Likewise in run: a throwing user callback
is routed to handleError and run completes with the new value stored,
while a throwing non-user callback propagates (also after the value was
stored). -/
theorem claim5_user_error_containment (w : Watcher) (s : RunState) (g : GetterSpec) :
    (w.user = true → (w.getterSpec g).result = none →
      ∃ w1 s1, Watcher.get w s g = Except.ok (JsValue.undef, w1, s1) ∧
        s1.targetStack = s.targetStack ∧ s1.handled = s.handled + 1 ∧
        w1.newDepIds = [] ∧ w1.newDeps = []) ∧
    (w.user = false → (w.getterSpec g).result = none →
      ∃ e, Watcher.get w s g = Except.error e) ∧
    (w.user = true → w.active = true →
      ∀ v w1 s1, Watcher.get w s g = Except.ok (v, w1, s1) →
        (!strictEq v w1.value || isObject v || w1.deep) = true →
        Watcher.run w s g false =
          Except.ok ({ w1 with value := v },
            { s1 with cbCalls := s1.cbCalls ++ [(v, w1.value)],
                      handled := s1.handled + 1 })) ∧
    (w.user = false → w.active = true →
      ∀ v w1 s1, Watcher.get w s g = Except.ok (v, w1, s1) →
        (!strictEq v w1.value || isObject v || w1.deep) = true →
        Watcher.run w s g false =
          Except.error ({ w1 with value := v },
            { s1 with cbCalls := s1.cbCalls ++ [(v, w1.value)] })) := by
  refine ⟨?_, ?_, ?_, ?_⟩
  · intro hu hres
    simp only [Watcher.get, finishGet, hres, hu, if_true]
    exact ⟨_, _, rfl, rfl, rfl, rfl, rfl⟩
  · intro hu hres
    simp [Watcher.get, hres, hu]
  · intro hu hact v w1 s1 hget hc
    have hu1 : w1.user = w.user := (coreOf_fields (get_ok_facts hget).1).2.2.1
    simp [Watcher.run, hact, hget, hc, hu1, hu]
  · intro hu hact v w1 s1 hget hc
    have hu1 : w1.user = w.user := (coreOf_fields (get_ok_facts hget).1).2.2.1
    simp [Watcher.run, hact, hget, hc, hu1, hu]

/-- Witness for C5: a concrete user watcher whose getter throws still
completes its evaluation with value undefined and one routed error. -/
theorem claim5_witness :
    wUser.user = true ∧ (wUser.getterSpec gThrow).result = none ∧
    (∃ w1 s1, Watcher.get wUser rs0 gThrow = Except.ok (JsValue.undef, w1, s1) ∧
      s1.targetStack = rs0.targetStack ∧ s1.handled = rs0.handled + 1 ∧
      w1.newDepIds = [] ∧ w1.newDeps = []) :=
  ⟨rfl, rfl, (claim5_user_error_containment wUser rs0 gThrow).1 rfl rfl⟩

/-- Unsubscription effect of folding Dep.removeSub over a dep id list:
given that the watcher appears at most once in every subscriber list, it
is absent from every listed dep afterwards, unlisted deps are untouched,
and the at-most-once bound is preserved. -/
theorem teardown_fold (wid : Nat) (ds : List Nat) :
    ∀ (env : DepEnv), (∀ d, (env.subs d).count wid ≤ 1) →
    (∀ d, d ∈ ds → wid ∉ (ds.foldl (fun e d => Dep.removeSub e d wid) env).subs d) ∧
    (∀ d, d ∉ ds → (ds.foldl (fun e d => Dep.removeSub e d wid) env).subs d = env.subs d) ∧
    (∀ d, ((ds.foldl (fun e d => Dep.removeSub e d wid) env).subs d).count wid ≤ 1) := by
  induction ds with
  | nil => exact fun env h => ⟨by simp, fun d _ => rfl, h⟩
  | cons d0 ds ih =>
      intro env h
      have hsubs1 : ∀ d, (Dep.removeSub env d0 wid).subs d
          = if d = d0 then (env.subs d0).erase wid else env.subs d := fun d => rfl
      have hcount1 : ∀ d, ((Dep.removeSub env d0 wid).subs d).count wid ≤ 1 := by
        intro d
        rw [hsubs1]
        by_cases hd : d = d0
        · rw [if_pos hd, List.count_erase_self]
          have := h d0
          omega
        · rw [if_neg hd]
          exact h d
      obtain ⟨ih1, ih2, ih3⟩ := ih (Dep.removeSub env d0 wid) hcount1
      have hfold : (d0 :: ds).foldl (fun e d => Dep.removeSub e d wid) env
          = ds.foldl (fun e d => Dep.removeSub e d wid) (Dep.removeSub env d0 wid) := rfl
      refine ⟨?_, ?_, ?_⟩
      · intro d hd
        rw [hfold]
        rcases List.mem_cons.mp hd with hd0 | hds
        · by_cases hmem : d ∈ ds
          · exact ih1 d hmem
          · rw [ih2 d hmem, hsubs1, if_pos hd0]
            have hz : ((env.subs d0).erase wid).count wid = 0 := by
              rw [List.count_erase_self]
              have := h d0
              omega
            exact (List.count_eq_zero.mp hz)
        · exact ih1 d hds
      · intro d hd
        rw [hfold, ih2 d (fun hin => hd (List.mem_cons_of_mem d0 hin)), hsubs1,
          if_neg (fun he => hd (by rw [he]; exact List.mem_cons_self d0 ds))]
      · intro d
        rw [hfold]
        exact ih3 d

/-- C6: teardown of an active watcher unsubscribes it from every dep in
its current dependency set (leaving other deps untouched), removes it
from the owning scope watcher list unless the scope is being destroyed,
and marks it inactive; teardown of an inactive watcher is a no-op, hence
teardown is idempotent. -/
theorem claim6_teardown (w : Watcher) (vm : Vm) (env : DepEnv)
    (hcount : ∀ d, (env.subs d).count w.id ≤ 1) :
    (w.active = true →
      (Watcher.teardown w vm env).1.active = false ∧
      (∀ d, d ∈ w.deps → w.id ∉ (Watcher.teardown w vm env).2.2.subs d) ∧
      (∀ d, d ∉ w.deps → (Watcher.teardown w vm env).2.2.subs d = env.subs d) ∧
      (vm.isBeingDestroyed = true → (Watcher.teardown w vm env).2.1 = vm) ∧
      (vm.isBeingDestroyed = false →
        (Watcher.teardown w vm env).2.1.watchers = vm.watchers.erase w.id)) ∧
    (w.active = false → Watcher.teardown w vm env = (w, vm, env)) ∧
    Watcher.teardown (Watcher.teardown w vm env).1 (Watcher.teardown w vm env).2.1
      (Watcher.teardown w vm env).2.2 = Watcher.teardown w vm env := by
  refine ⟨?_, ?_, ?_⟩
  · intro ha
    have ht : Watcher.teardown w vm env
        = ({ w with active := false },
           (if vm.isBeingDestroyed then vm
            else { vm with watchers := vm.watchers.erase w.id }),
           w.deps.foldl (fun e d => Dep.removeSub e d w.id) env) := by
      simp [Watcher.teardown, ha]
    rw [ht]
    refine ⟨rfl, ?_, ?_, ?_, ?_⟩
    · exact fun d hd => (teardown_fold w.id w.deps env hcount).1 d hd
    · exact fun d hd => (teardown_fold w.id w.deps env hcount).2.1 d hd
    · intro hd
      simp [hd]
    · intro hd
      simp [hd]
  · intro ha
    simp [Watcher.teardown, ha]
  · by_cases ha : w.active = true
    · have ht : Watcher.teardown w vm env
          = ({ w with active := false },
             (if vm.isBeingDestroyed then vm
              else { vm with watchers := vm.watchers.erase w.id }),
             w.deps.foldl (fun e d => Dep.removeSub e d w.id) env) := by
        simp [Watcher.teardown, ha]
      rw [ht]
      simp [Watcher.teardown]
    · have ha0 : w.active = false := by
        revert ha
        cases w.active <;> simp
      have h0 : Watcher.teardown w vm env = (w, vm, env) := by
        simp [Watcher.teardown, ha0]
      rw [h0]
      exact h0

/-- Witness for C6 on a concrete active watcher with one subscription. -/
theorem claim6_witness :
    wTear.active = true ∧
    (Watcher.teardown wTear vmTear envTear).1.active = false ∧
    wTear.id ∉ (Watcher.teardown wTear vmTear envTear).2.2.subs 5 ∧
    (Watcher.teardown wTear vmTear envTear).2.1.watchers = vmTear.watchers.erase wTear.id := by
  have hc : ∀ d, (envTear.subs d).count wTear.id ≤ 1 := by
    intro d
    by_cases hd : d = 5 <;> simp [envTear, wTear, hd]
  have h := (claim6_teardown wTear vmTear envTear hc).1 rfl
  exact ⟨rfl, h.1, h.2.1 5 (by decide), h.2.2.2.2 rfl⟩

/-- A watcher whose getter degraded to the no-op fallback evaluates to
undefined without throwing, whatever the ambient getter behaviour is. -/
theorem noopFallback_get (w : Watcher) (hg : w.getter = GetterKind.noopFallback)
    (s : RunState) (g : GetterSpec) :
    ∃ w1 s1, Watcher.get w s g = Except.ok (JsValue.undef, w1, s1) := by
  have hspec : w.getterSpec g = ⟨[], [], some JsValue.undef⟩ := by
    simp [Watcher.getterSpec, hg]
  simp only [Watcher.get, finishGet, hspec]
  exact ⟨_, _, rfl⟩

/-- C8: when the path expression does not parse, construction still
succeeds, the getter is replaced by the no-op fallback (so every
evaluation returns undefined without throwing), and a non-fatal warning
is reported in dev mode. -/
theorem claim8_malformed_path (parse : Nat → Bool) (dev : Bool) (vm : Vm) (p : Nat)
    (opts : Option WOptions) (uid : Nat) (s : RunState) (g : GetterSpec)
    (hbad : parse p = false) :
    ∃ r : MkResult, mkWatcher parse dev vm (ExpOrFn.path p) opts uid s g = Except.ok r ∧
      r.watcher.getter = GetterKind.noopFallback ∧
      r.state.warnings = s.warnings + (if dev then 1 else 0) ∧
      ∀ g' s', ∃ w1 s1, Watcher.get r.watcher s' g' = Except.ok (JsValue.undef, w1, s1) := by
  by_cases hlz : optLazy opts = true
  · refine ⟨⟨{ id := uid + 1, deep := optDeep opts, user := optUser opts,
               lazyFlag := optLazy opts, sync := optSync opts, dirty := optLazy opts,
               active := true, value := JsValue.undef, deps := [], newDeps := [],
               depIds := [], newDepIds := [], getter := GetterKind.noopFallback },
        { vm with watchers := vm.watchers ++ [uid + 1] }, uid + 1,
        { s with warnings := s.warnings + (if dev then 1 else 0) }⟩, ?_, rfl, rfl, ?_⟩
    · simp [mkWatcher, hbad, hlz]
    · exact fun g' s' => noopFallback_get _ rfl s' g'
  · have hlz0 : optLazy opts = false := by
      revert hlz
      cases optLazy opts <;> simp
    obtain ⟨w1, s1, hget⟩ := noopFallback_get
      { id := uid + 1, deep := optDeep opts, user := optUser opts,
        lazyFlag := false, sync := optSync opts, dirty := false,
        active := true, value := JsValue.undef, deps := [], newDeps := [],
        depIds := [], newDepIds := [], getter := GetterKind.noopFallback }
      rfl { s with warnings := s.warnings + (if dev then 1 else 0) } g
    have hcore := coreOf_fields (get_ok_facts hget).1
    refine ⟨⟨{ w1 with value := JsValue.undef },
        { vm with watchers := vm.watchers ++ [uid + 1] }, uid + 1, s1⟩, ?_, ?_, ?_, ?_⟩
    · simp [mkWatcher, hbad, hlz0, hget]
    · exact hcore.2.2.2.2.2.2.2.2
    · exact (get_ok_facts hget).2.2.2.2.2.2
    · exact fun g' s' =>
        noopFallback_get { w1 with value := JsValue.undef }
          hcore.2.2.2.2.2.2.2.2 s' g'

theorem midInv_base (w : Watcher) (env : DepEnv) (h : DepInv w env) :
    MidInv w env [] w env := by
  obtain ⟨h1, h2, h3, h4, h5⟩ := h
  refine ⟨rfl, rfl, rfl, ?_, ?_, ?_, ?_, h5, ?_⟩
  · intro d
    rw [h2]
  · intro d
    rw [h1]
  · rw [h1]
    exact List.nodup_nil
  · intro d
    rw [h4 d]
    simp
  · intro d
    simp

/-- One addDep call extends the collection invariant by one read. -/
theorem addDep_midInv {w0 : Watcher} {env0 : DepEnv} {done : List Nat}
    {w : Watcher} {env : DepEnv}
    (h : MidInv w0 env0 done w env) (d : Nat) :
    MidInv w0 env0 (done ++ [d]) (Watcher.addDep w env d).1 (Watcher.addDep w env d).2 := by
  obtain ⟨hcore, hdeps, hdepIds, hnid, hnd, hndp, hsubs, hcnt, hcalls⟩ := h
  have hid : w.id = w0.id := (coreOf_fields hcore).1
  by_cases h1 : d ∈ w.newDepIds
  · have hdone : d ∈ done := (hnid d).mp h1
    have heq : Watcher.addDep w env d = (w, env) := by
      unfold Watcher.addDep
      rw [if_pos h1]
    rw [heq]
    have hmem : ∀ e : Nat, e ∈ done ++ [d] ↔ e ∈ done := by
      intro e
      simp only [List.mem_append, List.mem_singleton]
      constructor
      · rintro (he | rfl)
        · exact he
        · exact hdone
      · exact Or.inl
    refine ⟨hcore, hdeps, hdepIds, ?_, ?_, hndp, ?_, hcnt, ?_⟩
    · intro e
      rw [hmem e]
      exact hnid e
    · intro e
      rw [hmem e]
      exact hnd e
    · intro e
      rw [hmem e]
      exact hsubs e
    · intro e
      rw [hcalls e]
      congr 1
      exact if_congr (and_congr_left fun _ => (hmem e).symm) rfl rfl
  · have hdoneN : d ∉ done := fun hc => h1 ((hnid d).mpr hc)
    have hdn : d ∉ w.newDeps := fun hc => hdoneN ((hnd d).mp hc)
    have hw' : (Watcher.addDep w env d).1
        = { w with newDepIds := w.newDepIds ++ [d], newDeps := w.newDeps ++ [d] } := by
      unfold Watcher.addDep
      rw [if_neg h1]
      by_cases h2 : d ∈ w.depIds <;> simp [h2]
    have hnodup' : (w.newDeps ++ [d]).Nodup :=
      hndp.append (List.nodup_singleton d)
        (fun a ha hb => hdn (by rwa [List.mem_singleton.mp hb] at ha))
    by_cases h2 : d ∈ w.depIds
    · have henv' : (Watcher.addDep w env d).2 = env := by
        unfold Watcher.addDep
        rw [if_neg h1, if_pos h2]
      rw [hw', henv']
      refine ⟨hcore, hdeps, hdepIds, ?_, ?_, hnodup', ?_, hcnt, ?_⟩
      · intro e
        simp only [List.mem_append, List.mem_singleton, hnid]
      · intro e
        simp only [List.mem_append, List.mem_singleton, hnd]
      · intro e
        rw [hsubs e]
        simp only [List.mem_append, List.mem_singleton]
        constructor
        · rintro (hh | hh)
          · exact Or.inl hh
          · exact Or.inr (Or.inl hh)
        · rintro (hh | hh | rfl)
          · exact Or.inl hh
          · exact Or.inr hh
          · exact Or.inl (hdepIds ▸ h2)
      · intro e
        rw [hcalls e]
        congr 1
        refine if_congr ?_ rfl rfl
        simp only [List.mem_append, List.mem_singleton]
        constructor
        · rintro ⟨hh, hn⟩
          exact ⟨Or.inl hh, hn⟩
        · rintro ⟨hh | rfl, hn⟩
          · exact ⟨hh, hn⟩
          · exact absurd (hdepIds ▸ h2) hn
    · have hnd0 : d ∉ w0.depIds := fun hc => h2 (hdepIds.symm ▸ hc)
      have hnotin : w0.id ∉ env.subs d := fun hc => by
        rcases (hsubs d).mp hc with hcc | hcc
        · exact hnd0 hcc
        · exact hdoneN hcc
      have henv' : (Watcher.addDep w env d).2 = Dep.addSub env d w.id := by
        unfold Watcher.addDep
        rw [if_neg h1, if_neg h2]
      have hsubs' : ∀ e, (Dep.addSub env d w.id).subs e
          = if e = d then env.subs d ++ [w.id] else env.subs e := by
        intro e
        simp only [Dep.addSub]
        by_cases he : e = d
        · rw [if_pos he, if_neg (hid.symm ▸ hnotin), if_pos he]
        · rw [if_neg he, if_neg he]
      have hcalls' : ∀ e, (Dep.addSub env d w.id).subCalls e
          = if e = d then env.subCalls d + 1 else env.subCalls e := fun e => rfl
      rw [hw', henv']
      refine ⟨hcore, hdeps, hdepIds, ?_, ?_, hnodup', ?_, ?_, ?_⟩
      · intro e
        simp only [List.mem_append, List.mem_singleton, hnid]
      · intro e
        simp only [List.mem_append, List.mem_singleton, hnd]
      · intro e
        rw [hsubs' e]
        by_cases he : e = d
        · subst he
          rw [if_pos rfl]
          constructor
          · intro _
            simp
          · intro _
            simp [hid]
        · rw [if_neg he, hsubs e]
          simp only [List.mem_append, List.mem_singleton]
          constructor
          · rintro (hh | hh)
            · exact Or.inl hh
            · exact Or.inr (Or.inl hh)
          · rintro (hh | hh | hh)
            · exact Or.inl hh
            · exact Or.inr hh
            · exact absurd hh he
      · intro e
        rw [hsubs' e]
        by_cases he : e = d
        · subst he
          rw [if_pos rfl]
          have h0 : (env.subs e).count w0.id = 0 := List.count_eq_zero.mpr hnotin
          simp [List.count_append, h0, hid]
        · rw [if_neg he]
          exact hcnt e
      · intro e
        rw [hcalls' e]
        by_cases he : e = d
        · subst he
          rw [if_pos rfl, hcalls e]
          have hz : (if e ∈ done ∧ e ∉ w0.depIds then 1 else 0) = 0 := by
            simp [hdoneN]
          have ho : (if e ∈ done ++ [e] ∧ e ∉ w0.depIds then 1 else 0) = 1 := by
            simp [hnd0]
          rw [hz, ho]
        · rw [if_neg he, hcalls e]
          congr 1
          refine if_congr ?_ rfl rfl
          simp only [List.mem_append, List.mem_singleton]
          constructor
          · rintro ⟨hh, hn⟩
            exact ⟨Or.inl hh, hn⟩
          · rintro ⟨hh | hh, hn⟩
            · exact ⟨hh, hn⟩
            · exact absurd hh he

/-- Folding addDep over a read list extends the collection invariant. -/
theorem collect_midInv (w0 : Watcher) (env0 : DepEnv) (reads : List Nat) :
    ∀ (done : List Nat) (w : Watcher) (env : DepEnv), MidInv w0 env0 done w env →
    MidInv w0 env0 (done ++ reads) (collectReads w env reads).1 (collectReads w env reads).2 := by
  induction reads with
  | nil =>
      intro done w env h
      simpa using h
  | cons r rs ih =>
      intro done w env h
      have hrec := ih (done ++ [r]) (Watcher.addDep w env r).1 (Watcher.addDep w env r).2
        (addDep_midInv h r)
      have hl : (done ++ [r]) ++ rs = done ++ (r :: rs) := by simp
      rw [hl] at hrec
      exact hrec

/-- Effect of the removal fold of cleanupDeps: deps not re-observed lose
the subscription, re-observed or unlisted deps are untouched, the
at-most-once bound is preserved, and subCalls is unchanged. -/
theorem cleanup_fold (wid : Nat) (newIds : List Nat) (ds : List Nat) :
    ∀ env : DepEnv, (∀ d, (env.subs d).count wid ≤ 1) →
    (∀ d, d ∈ ds → d ∉ newIds →
      wid ∉ (ds.foldl (fun e x => if x ∈ newIds then e else Dep.removeSub e x wid) env).subs d) ∧
    (∀ d, d ∉ ds ∨ d ∈ newIds →
      (ds.foldl (fun e x => if x ∈ newIds then e else Dep.removeSub e x wid) env).subs d
        = env.subs d) ∧
    (∀ d, ((ds.foldl (fun e x => if x ∈ newIds then e
        else Dep.removeSub e x wid) env).subs d).count wid ≤ 1) ∧
    (∀ d, (ds.foldl (fun e x => if x ∈ newIds then e
        else Dep.removeSub e x wid) env).subCalls d = env.subCalls d) := by
  induction ds with
  | nil => exact fun env h => ⟨by simp, fun d _ => rfl, h, fun d => rfl⟩
  | cons d0 ds ih =>
      intro env h
      by_cases h0 : d0 ∈ newIds
      · have hfold : ∀ e : DepEnv,
            (d0 :: ds).foldl (fun e x => if x ∈ newIds then e else Dep.removeSub e x wid) e
            = ds.foldl (fun e x => if x ∈ newIds then e else Dep.removeSub e x wid)
                (if d0 ∈ newIds then e else Dep.removeSub e d0 wid) := fun e => rfl
        obtain ⟨ih1, ih2, ih3, ih4⟩ := ih env h
        rw [hfold env, if_pos h0]
        refine ⟨?_, ?_, ih3, ih4⟩
        · intro d hd hdn
          rcases List.mem_cons.mp hd with hh | hh
          · exact absurd (hh ▸ h0) hdn
          · exact ih1 d hh hdn
        · intro d hd
          rcases hd with hh | hh
          · exact ih2 d (Or.inl fun hc => hh (List.mem_cons_of_mem d0 hc))
          · exact ih2 d (Or.inr hh)
      · have hcount1 : ∀ d, ((Dep.removeSub env d0 wid).subs d).count wid ≤ 1 := by
          intro d
          show (if d = d0 then (env.subs d0).erase wid else env.subs d).count wid ≤ 1
          by_cases hd : d = d0
          · rw [if_pos hd, List.count_erase_self]
            have := h d0
            omega
          · rw [if_neg hd]
            exact h d
        obtain ⟨ih1, ih2, ih3, ih4⟩ := ih (Dep.removeSub env d0 wid) hcount1
        have hfold : (d0 :: ds).foldl (fun e x => if x ∈ newIds then e
              else Dep.removeSub e x wid) env
            = ds.foldl (fun e x => if x ∈ newIds then e else Dep.removeSub e x wid)
                (Dep.removeSub env d0 wid) := by
          show ds.foldl _ (if d0 ∈ newIds then env else Dep.removeSub env d0 wid) = _
          rw [if_neg h0]
        rw [hfold]
        refine ⟨?_, ?_, ih3, ?_⟩
        · intro d hd hdn
          rcases List.mem_cons.mp hd with hh | hh
          · by_cases hmem : d ∈ ds
            · exact ih1 d hmem hdn
            · rw [ih2 d (Or.inl hmem)]
              show wid ∉ (if d = d0 then (env.subs d0).erase wid else env.subs d)
              rw [if_pos hh]
              have hz : ((env.subs d0).erase wid).count wid = 0 := by
                rw [List.count_erase_self]
                have := h d0
                omega
              exact List.count_eq_zero.mp hz
          · exact ih1 d hh hdn
        · intro d hd
          have hd0 : d ≠ d0 := by
            rcases hd with hh | hh
            · exact fun he => hh (by rw [he]; exact List.mem_cons_self d0 ds)
            · exact fun he => h0 (he ▸ hh)
          have hstep : (Dep.removeSub env d0 wid).subs d = env.subs d := by
            show (if d = d0 then (env.subs d0).erase wid else env.subs d) = env.subs d
            rw [if_neg hd0]
          rcases hd with hh | hh
          · rw [ih2 d (Or.inl fun hc => hh (List.mem_cons_of_mem d0 hc)), hstep]
          · rw [ih2 d (Or.inr hh), hstep]
        · intro d
          rw [ih4 d]
          rfl

/-- Complete characterisation of one dependency reconciliation: after
cleanupDeps at the end of an evaluation that observed exactly the listed
reads, the dep sets equal the reads (without duplicates), the watcher is
subscribed to a dep exactly when it was read, at most once, and addSub
was invoked exactly once per newly seen dep. -/
theorem cleanup_final (w0 : Watcher) (env0 : DepEnv) (reads : List Nat)
    (w : Watcher) (env : DepEnv)
    (hmid : MidInv w0 env0 reads w env)
    (hdi : ∀ d, d ∈ w0.depIds ↔ d ∈ w0.deps) :
    coreOf (Watcher.cleanupDeps w env).1 = coreOf w0 ∧
    (∀ d, d ∈ (Watcher.cleanupDeps w env).1.depIds ↔ d ∈ reads) ∧
    (∀ d, d ∈ (Watcher.cleanupDeps w env).1.deps ↔ d ∈ reads) ∧
    (Watcher.cleanupDeps w env).1.deps.Nodup ∧
    (Watcher.cleanupDeps w env).1.newDeps = [] ∧
    (Watcher.cleanupDeps w env).1.newDepIds = [] ∧
    (∀ d, w0.id ∈ (Watcher.cleanupDeps w env).2.subs d ↔ d ∈ reads) ∧
    (∀ d, ((Watcher.cleanupDeps w env).2.subs d).count w0.id ≤ 1) ∧
    (∀ d, (Watcher.cleanupDeps w env).2.subCalls d = env0.subCalls d +
      (if d ∈ reads ∧ d ∉ w0.depIds then 1 else 0)) := by
  obtain ⟨hcore, hdeps, hdepIds, hnid, hnd, hndp, hsubs, hcnt, hcalls⟩ := hmid
  have hid : w.id = w0.id := (coreOf_fields hcore).1
  have hfold := cleanup_fold w.id w.newDepIds w.deps env
    (fun d => hid.symm ▸ hcnt d)
  have henv2 : (Watcher.cleanupDeps w env).2
      = w.deps.foldl (fun e x => if x ∈ w.newDepIds then e
          else Dep.removeSub e x w.id) env := rfl
  refine ⟨?_, hnid, hnd, hndp, rfl, rfl, ?_, ?_, ?_⟩
  · rw [cleanupDeps_core]
    exact hcore
  · intro d
    rw [henv2]
    by_cases hr : d ∈ reads
    · rw [hfold.2.1 d (Or.inr ((hnid d).mpr hr))]
      rw [hsubs d]
      simp [hr]
    · have hdnn : d ∉ w.newDepIds := fun hc => hr ((hnid d).mp hc)
      by_cases hd : d ∈ w.deps
      · exact iff_of_false (hid ▸ hfold.1 d hd hdnn) hr
      · rw [hfold.2.1 d (Or.inl hd), hsubs d]
        have hnd0 : d ∉ w0.depIds := fun hc => hd (hdeps.symm ▸ (hdi d).mp hc)
        exact iff_of_false (by rintro (hh | hh) <;> [exact hnd0 hh; exact hr hh]) hr
  · intro d
    rw [henv2]
    exact hid ▸ hfold.2.2.1 d
  · intro d
    rw [henv2, hfold.2.2.2 d, hcalls d]

/-- Dependency facts of one successful get from a well-formed state: the
dep sets equal exactly the reads of this evaluation, without duplicates,
subscriptions match the reads, and addSub fired once per never-seen dep. -/
theorem get_dep_facts (w : Watcher) (s : RunState) (g : GetterSpec)
    (hinv : DepInv w s.env) :
    ∀ v w1 s1, Watcher.get w s g = Except.ok (v, w1, s1) →
      (∀ d, d ∈ w1.depIds ↔ d ∈ effectiveReads w g v) ∧
      (∀ d, d ∈ w1.deps ↔ d ∈ effectiveReads w g v) ∧
      w1.deps.Nodup ∧
      (∀ d, w.id ∈ s1.env.subs d ↔ d ∈ effectiveReads w g v) ∧
      (∀ d, (s1.env.subs d).count w.id ≤ 1) ∧
      (∀ d, s1.env.subCalls d = s.env.subCalls d +
        (if d ∈ effectiveReads w g v ∧ d ∉ w.depIds then 1 else 0)) := by
  intro v w1 s1 h
  have hmid1 := collect_midInv w s.env (w.getterSpec g).reads [] w s.env
    (midInv_base w s.env hinv)
  rw [List.nil_append] at hmid1
  have hdeepX : (collectReads w s.env (w.getterSpec g).reads).1.deep = w.deep :=
    (coreOf_fields (collectReads_core _ _ _)).2.1
  simp only [Watcher.get, finishGet] at h
  rcases hres : (w.getterSpec g).result with _ | val
  · simp only [hres] at h
    by_cases huser : w.user = true
    · rw [if_pos huser] at h
      simp only [Except.ok.injEq, Prod.mk.injEq] at h
      obtain ⟨hv, hw, hs⟩ := h
      subst hv
      subst hw
      subst hs
      by_cases hcond : ((collectReads w s.env (w.getterSpec g).reads).1.deep
          && isObject JsValue.undef) = true
      · rw [hdeepX] at hcond
        simp [isObject] at hcond
      · rw [if_neg hcond]
        have heff : effectiveReads w g JsValue.undef = (w.getterSpec g).reads := by
          simp [effectiveReads, isObject]
        rw [heff]
        have hfin := cleanup_final w s.env (w.getterSpec g).reads
          (collectReads w s.env (w.getterSpec g).reads).1
          (collectReads w s.env (w.getterSpec g).reads).2 hmid1 hinv.2.2.1
        exact ⟨hfin.2.1, hfin.2.2.1, hfin.2.2.2.1, hfin.2.2.2.2.2.2.1,
          hfin.2.2.2.2.2.2.2.1, hfin.2.2.2.2.2.2.2.2⟩
    · rw [if_neg huser] at h
      simp at h
  · simp only [hres] at h
    simp only [Except.ok.injEq, Prod.mk.injEq] at h
    obtain ⟨hv, hw, hs⟩ := h
    subst hv
    subst hw
    subst hs
    by_cases hcond : ((collectReads w s.env (w.getterSpec g).reads).1.deep
        && isObject val) = true
    · rw [if_pos hcond]
      rw [hdeepX] at hcond
      have heff : effectiveReads w g val
          = (w.getterSpec g).reads ++ (w.getterSpec g).deepReads := by
        simp [effectiveReads, hcond]
      rw [heff]
      have hmid2 := collect_midInv w s.env (w.getterSpec g).deepReads
        (w.getterSpec g).reads
        (collectReads w s.env (w.getterSpec g).reads).1
        (collectReads w s.env (w.getterSpec g).reads).2 hmid1
      have hfin := cleanup_final w s.env
        ((w.getterSpec g).reads ++ (w.getterSpec g).deepReads) _ _ hmid2 hinv.2.2.1
      exact ⟨hfin.2.1, hfin.2.2.1, hfin.2.2.2.1, hfin.2.2.2.2.2.2.1,
        hfin.2.2.2.2.2.2.2.1, hfin.2.2.2.2.2.2.2.2⟩
    · rw [if_neg hcond]
      rw [hdeepX] at hcond
      have hcond0 : (w.deep && isObject val) = false := by
        revert hcond
        cases w.deep && isObject val <;> simp
      have heff : effectiveReads w g val = (w.getterSpec g).reads := by
        simp [effectiveReads, hcond0]
      rw [heff]
      have hfin := cleanup_final w s.env (w.getterSpec g).reads
        (collectReads w s.env (w.getterSpec g).reads).1
        (collectReads w s.env (w.getterSpec g).reads).2 hmid1 hinv.2.2.1
      exact ⟨hfin.2.1, hfin.2.2.1, hfin.2.2.2.1, hfin.2.2.2.2.2.2.1,
        hfin.2.2.2.2.2.2.2.1, hfin.2.2.2.2.2.2.2.2⟩

/-- C1: exact and idempotent dependency tracking. After any successful
evaluation by get, starting from a well-formed watcher state, the dep id
set and dep list both contain exactly the dep ids read during that
evaluation, the dep list has no duplicates, the watcher is subscribed to
a dep exactly when it was read (deps read before but not re-read are
unsubscribed by cleanupDeps), each subscriber list holds the watcher at
most once, and addSub was invoked exactly once for each dep never seen
before and not at all for the rest (the addDep guard). -/
theorem claim1_exact_dependency_tracking (w : Watcher) (s : RunState) (g : GetterSpec)
    (hinv : DepInv w s.env) :
    ∀ v w1 s1, Watcher.get w s g = Except.ok (v, w1, s1) →
      (∀ d, d ∈ w1.depIds ↔ d ∈ effectiveReads w g v) ∧
      (∀ d, d ∈ w1.deps ↔ d ∈ effectiveReads w g v) ∧
      w1.deps.Nodup ∧
      (∀ d, w.id ∈ s1.env.subs d ↔ d ∈ effectiveReads w g v) ∧
      (∀ d, (s1.env.subs d).count w.id ≤ 1) ∧
      (∀ d, s1.env.subCalls d = s.env.subCalls d +
        (if d ∈ effectiveReads w g v ∧ d ∉ w.depIds then 1 else 0)) :=
  get_dep_facts w s g hinv

/-- Witness for C1: watcher 8 re-reads dep 5 (twice), newly reads dep 7
and stops reading dep 6; afterwards dep 5 is kept, dep 6 unsubscribed,
dep 7 subscribed with exactly one addSub call. -/
theorem claim1_witness :
    DepInv wC1 rsC1.env ∧
    (5 ∈ (okWat (Watcher.get wC1 rsC1 gC1)).depIds ↔
      5 ∈ effectiveReads wC1 gC1 (JsValue.numV 3)) ∧
    (wC1.id ∈ (okSt (Watcher.get wC1 rsC1 gC1)).env.subs 6 ↔
      6 ∈ effectiveReads wC1 gC1 (JsValue.numV 3)) ∧
    (okSt (Watcher.get wC1 rsC1 gC1)).env.subCalls 7 = rsC1.env.subCalls 7 +
      (if 7 ∈ effectiveReads wC1 gC1 (JsValue.numV 3) ∧ 7 ∉ wC1.depIds then 1 else 0) := by
  have hinv : DepInv wC1 rsC1.env := by
    refine ⟨rfl, rfl, ?_, ?_, ?_⟩
    · intro d
      exact Iff.rfl
    · intro d
      by_cases h5 : d = 5
      · subst h5
        simp [wC1, rsC1, envC1]
      · by_cases h6 : d = 6
        · subst h6
          simp [wC1, rsC1, envC1]
        · simp [wC1, rsC1, envC1, h5, h6]
    · intro d
      by_cases h5 : d = 5
      · subst h5
        simp [wC1, rsC1, envC1]
      · by_cases h6 : d = 6
        · subst h6
          simp [wC1, rsC1, envC1]
        · simp [wC1, rsC1, envC1, h5, h6]
  have H := claim1_exact_dependency_tracking wC1 rsC1 gC1 hinv (JsValue.numV 3)
    (okWat (Watcher.get wC1 rsC1 gC1)) (okSt (Watcher.get wC1 rsC1 gC1)) rfl
  exact ⟨hinv, H.1 5, H.2.2.2.1 6, H.2.2.2.2.2 7⟩

/-- C10: construction-time evaluation split. A lazy watcher is built
without any evaluation — value undefined, dirty, empty dep sets, state
untouched; a non-lazy watcher immediately evaluates get exactly once and
stores its result; in both cases the new watcher id uid+1 is appended to
the owning scope watcher list and the uid counter advances to uid+1, so
ids are strictly increasing and unique. For a non-lazy watcher starting
in a well-formed environment the dep id set is populated with exactly the
reads of that first evaluation. -/
theorem claim10_construction_split (parse : Nat → Bool) (dev : Bool) (vm : Vm)
    (opts : Option WOptions) (uid : Nat) (s : RunState) (g : GetterSpec) :
    (optLazy opts = true →
      mkWatcher parse dev vm ExpOrFn.fn opts uid s g
        = Except.ok ⟨freshWatcher opts uid,
            { vm with watchers := vm.watchers ++ [uid + 1] }, uid + 1, s⟩ ∧
      (freshWatcher opts uid).value = JsValue.undef ∧
      (freshWatcher opts uid).dirty = true ∧
      (freshWatcher opts uid).deps = [] ∧ (freshWatcher opts uid).depIds = [] ∧
      (freshWatcher opts uid).newDeps = [] ∧ (freshWatcher opts uid).newDepIds = [] ∧
      (freshWatcher opts uid).id = uid + 1) ∧
    (optLazy opts = false →
      ∀ v w1 s1, Watcher.get (freshWatcher opts uid) s g = Except.ok (v, w1, s1) →
        mkWatcher parse dev vm ExpOrFn.fn opts uid s g
          = Except.ok ⟨{ w1 with value := v },
              { vm with watchers := vm.watchers ++ [uid + 1] }, uid + 1, s1⟩ ∧
        s1.getterCalls = s.getterCalls + 1 ∧
        w1.id = uid + 1 ∧
        (DepInv (freshWatcher opts uid) s.env →
          ∀ d, d ∈ w1.depIds ↔ d ∈ effectiveReads (freshWatcher opts uid) g v)) := by
  constructor
  · intro hlz
    refine ⟨?_, rfl, ?_, rfl, rfl, rfl, rfl, rfl⟩
    · unfold mkWatcher
      rw [if_pos (by rw [hlz])]
      exact rfl
    · unfold freshWatcher
      rw [hlz]
  · intro hlz v w1 s1 hget
    have hbr : mkWatcher parse dev vm ExpOrFn.fn opts uid s g
        = match Watcher.get (freshWatcher opts uid) s g with
          | Except.error (w', s') =>
              Except.error (w', { vm with watchers := vm.watchers ++ [uid + 1] },
                uid + 1, s')
          | Except.ok (v, w1, s1) =>
              Except.ok ⟨{ w1 with value := v },
                { vm with watchers := vm.watchers ++ [uid + 1] }, uid + 1, s1⟩ := by
      unfold mkWatcher
      rw [if_neg (by rw [hlz]; exact fun hc => Bool.false_ne_true hc)]
      exact rfl
    rw [hbr]
    simp only [hget]
    refine ⟨trivial, (get_ok_facts hget).2.2.2.1, (coreOf_fields (get_ok_facts hget).1).1, ?_⟩
    intro hinv d
    exact (get_dep_facts (freshWatcher opts uid) s g hinv v w1 s1 hget).1 d

/-- Adding one unit of fuel preserves any successful walk result. -/
theorem trav_mono (h : List HNode) : ∀ fuel : Nat,
    (∀ a seen s, travGo h fuel a seen = some s → travGo h (fuel + 1) a seen = some s) ∧
    (∀ cs seen s, travKids h fuel cs seen = some s → travKids h (fuel + 1) cs seen = some s) := by
  intro fuel
  induction fuel with
  | zero =>
      constructor
      · intro a seen s hgo
        simp [travGo] at hgo
      · intro cs seen s hk
        cases cs with
        | nil =>
            simp [travKids] at hk
            simp [travKids, hk]
        | cons c cs' =>
            simp [travKids, travGo] at hk
  | succ n ihn =>
      have hgo1 : ∀ a seen s, travGo h (n + 1) a seen = some s →
          travGo h (n + 2) a seen = some s := by
        intro a seen s hgo
        cases hnode : lookupNode h a with
        | scalar =>
            simp only [travGo, hnode] at hgo ⊢
            exact hgo
        | container ob ext ch =>
            simp only [travGo, hnode] at hgo ⊢
            by_cases hext : ext = false
            · rw [if_pos hext] at hgo
              rw [if_pos hext]
              exact hgo
            · rw [if_neg hext] at hgo
              rw [if_neg hext]
              cases ob with
              | none => exact ihn.2 ch seen s hgo
              | some d =>
                  dsimp only at hgo ⊢
                  by_cases hd : d ∈ seen
                  · rw [if_pos hd] at hgo
                    rw [if_pos hd]
                    exact hgo
                  · rw [if_neg hd] at hgo
                    rw [if_neg hd]
                    exact ihn.2 ch (d :: seen) s hgo
      refine ⟨hgo1, ?_⟩
      intro cs
      induction cs with
      | nil =>
          intro seen s hk
          simp [travKids] at hk
          simp [travKids, hk]
      | cons c cs' ihc =>
          intro seen s hk
          rw [travKids] at hk
          rw [travKids]
          cases htv : travGo h (n + 1) c seen with
          | none =>
              rw [htv] at hk
              simp at hk
          | some s1 =>
              rw [htv] at hk
              rw [hgo1 c seen s1 htv]
              exact ihc s1 s hk

/-- Any amount of extra fuel preserves a successful walk result. -/
theorem travGo_fuel_mono (h : List HNode) : ∀ f' f : Nat, f ≤ f' →
    ∀ a seen s, travGo h f a seen = some s → travGo h f' a seen = some s := by
  intro f'
  induction f' with
  | zero =>
      intro f hle a seen s hgo
      rw [Nat.le_zero.mp hle] at hgo
      exact hgo
  | succ n ih =>
      intro f hle a seen s hgo
      rcases Nat.eq_or_lt_of_le hle with he | hl
      · rw [← he]
        exact hgo
      · exact (trav_mono h n).1 a seen s (ih f (Nat.lt_succ_iff.mp hl) a seen s hgo)

/-- Any amount of extra fuel preserves a successful child-loop result. -/
theorem travKids_fuel_mono (h : List HNode) : ∀ f' f : Nat, f ≤ f' →
    ∀ cs seen s, travKids h f cs seen = some s → travKids h f' cs seen = some s := by
  intro f'
  induction f' with
  | zero =>
      intro f hle cs seen s hk
      rw [Nat.le_zero.mp hle] at hk
      exact hk
  | succ n ih =>
      intro f hle cs seen s hk
      rcases Nat.eq_or_lt_of_le hle with he | hl
      · rw [← he]
        exact hk
      · exact (trav_mono h n).2 cs seen s (ih f (Nat.lt_succ_iff.mp hl) cs seen s hk)

/-- The seen set only grows along a successful walk, and stays free of
duplicates: each observer id is recorded at most once. -/
theorem trav_seen (h : List HNode) : ∀ fuel : Nat,
    (∀ a seen s, travGo h fuel a seen = some s →
      seen ⊆ s ∧ (seen.Nodup → s.Nodup)) ∧
    (∀ cs seen s, travKids h fuel cs seen = some s →
      seen ⊆ s ∧ (seen.Nodup → s.Nodup)) := by
  intro fuel
  induction fuel with
  | zero =>
      constructor
      · intro a seen s hgo
        simp [travGo] at hgo
      · intro cs seen s hk
        cases cs with
        | nil =>
            simp [travKids] at hk
            rw [← hk]
            exact ⟨List.Subset.refl seen, id⟩
        | cons c cs' =>
            simp [travKids, travGo] at hk
  | succ n ihn =>
      have hgo : ∀ a seen s, travGo h (n + 1) a seen = some s →
          seen ⊆ s ∧ (seen.Nodup → s.Nodup) := by
        intro a seen s hgo
        cases hnode : lookupNode h a with
        | scalar =>
            simp only [travGo, hnode] at hgo
            simp at hgo
            rw [← hgo]
            exact ⟨List.Subset.refl seen, id⟩
        | container ob ext ch =>
            simp only [travGo, hnode] at hgo
            by_cases hext : ext = false
            · rw [if_pos hext] at hgo
              simp at hgo
              rw [← hgo]
              exact ⟨List.Subset.refl seen, id⟩
            · rw [if_neg hext] at hgo
              cases ob with
              | none => exact ihn.2 ch seen s hgo
              | some d =>
                  dsimp only at hgo
                  by_cases hd : d ∈ seen
                  · rw [if_pos hd] at hgo
                    simp at hgo
                    rw [← hgo]
                    exact ⟨List.Subset.refl seen, id⟩
                  · rw [if_neg hd] at hgo
                    have hrec := ihn.2 ch (d :: seen) s hgo
                    refine ⟨?_, ?_⟩
                    · exact fun x hx => hrec.1 (List.mem_cons_of_mem d hx)
                    · intro hnd
                      exact hrec.2 (List.nodup_cons.mpr ⟨hd, hnd⟩)
      refine ⟨hgo, ?_⟩
      intro cs
      induction cs with
      | nil =>
          intro seen s hk
          simp [travKids] at hk
          rw [← hk]
          exact ⟨List.Subset.refl seen, id⟩
      | cons c cs' ihc =>
          intro seen s hk
          rw [travKids] at hk
          cases htv : travGo h (n + 1) c seen with
          | none =>
              rw [htv] at hk
              simp at hk
          | some s1 =>
              rw [htv] at hk
              have h1 := hgo c seen s1 htv
              have h2 := ihc s1 s hk
              exact ⟨List.Subset.trans h1.1 h2.1, fun hn => h2.2 (h1.2 hn)⟩

/-- A container read from the heap is one of its nodes. -/
theorem lookup_mem {h : List HNode} {a : Nat} {ob : Option Nat} {ext : Bool}
    {ch : List Nat} (he : lookupNode h a = HNode.container ob ext ch) :
    HNode.container ob ext ch ∈ h := by
  unfold lookupNode List.getD at he
  cases hq : h.get? a with
  | none =>
      rw [hq] at he
      simp at he
  | some node =>
      rw [hq] at he
      simp at he
      rw [← he]
      exact List.get?_mem hq

/-- Growing the seen set cannot increase the number of missing ids. -/
theorem remIds_mono {h : List HNode} {seen seen' : List Nat}
    (hsub : seen ⊆ seen') : remIds h seen' ≤ remIds h seen := by
  apply Finset.card_le_card
  intro x hx
  simp only [Finset.mem_filter] at hx ⊢
  exact ⟨hx.1, fun hc => hx.2 (hsub hc)⟩

/-- Recording a fresh heap observer id strictly decreases the measure. -/
theorem remIds_lt {h : List HNode} {seen : List Nat} {d : Nat}
    (hd : d ∈ obIdsOf h) (hns : d ∉ seen) :
    remIds h (d :: seen) < remIds h seen := by
  apply Finset.card_lt_card
  constructor
  · intro x hx
    simp only [Finset.mem_filter] at hx ⊢
    exact ⟨hx.1, fun hc => hx.2 (List.mem_cons_of_mem d hc)⟩
  · intro hall
    have hdin : d ∈ (obIdsOf h).toFinset.filter (fun x => x ∉ seen) := by
      simp only [Finset.mem_filter, List.mem_toFinset]
      exact ⟨hd, hns⟩
    have := hall hdin
    simp only [Finset.mem_filter] at this
    exact this.2 (List.mem_cons_self d seen)

/-- On a heap whose containers are all observed, the walk terminates from
any start address and any seen set: enough fuel yields a result. -/
theorem trav_total (h : List HNode) (hobs : AllObserved h) :
    ∀ m : Nat, ∀ seen : List Nat, remIds h seen ≤ m →
      ∀ a, ∃ f s, travGo h (f + 1) a seen = some s ∧ seen ⊆ s := by
  intro m
  induction m with
  | zero =>
      intro seen hm a
      cases hnode : lookupNode h a with
      | scalar =>
          exact ⟨0, seen, by simp [travGo, hnode], List.Subset.refl seen⟩
      | container ob ext ch =>
          by_cases hext : ext = false
          · exact ⟨0, seen, by simp only [travGo, hnode]; rw [if_pos hext],
              List.Subset.refl seen⟩
          · obtain ⟨d, hd⟩ := Option.isSome_iff_exists.mp
              (hobs ob ext ch (lookup_mem hnode))
            subst hd
            have hdid : d ∈ obIdsOf h :=
              List.mem_filterMap.mpr ⟨HNode.container (some d) ext ch, lookup_mem hnode, rfl⟩
            have hseen : d ∈ seen := by
              by_contra hns
              have := remIds_lt hdid hns
              omega
            exact ⟨0, seen, by simp only [travGo, hnode]; rw [if_neg hext, if_pos hseen],
              List.Subset.refl seen⟩
  | succ n ihn =>
      intro seen hm a
      cases hnode : lookupNode h a with
      | scalar =>
          exact ⟨0, seen, by simp [travGo, hnode], List.Subset.refl seen⟩
      | container ob ext ch =>
          by_cases hext : ext = false
          · exact ⟨0, seen, by simp only [travGo, hnode]; rw [if_pos hext],
              List.Subset.refl seen⟩
          · obtain ⟨d, hd⟩ := Option.isSome_iff_exists.mp
              (hobs ob ext ch (lookup_mem hnode))
            subst hd
            by_cases hseen : d ∈ seen
            · exact ⟨0, seen, by simp only [travGo, hnode]; rw [if_neg hext, if_pos hseen],
                List.Subset.refl seen⟩
            · have hdid : d ∈ obIdsOf h :=
                List.mem_filterMap.mpr
                  ⟨HNode.container (some d) ext ch, lookup_mem hnode, rfl⟩
              have hrem : remIds h (d :: seen) ≤ n := by
                have := remIds_lt hdid hseen
                omega
              have hkids : ∀ cs (seen' : List Nat), remIds h seen' ≤ n →
                  ∃ f s, travKids h f cs seen' = some s ∧ seen' ⊆ s := by
                intro cs
                induction cs with
                | nil =>
                    exact fun seen' _ => ⟨0, seen', by rw [travKids], List.Subset.refl seen'⟩
                | cons c cs' ihc =>
                    intro seen' hrem'
                    obtain ⟨f1, s1, hgo1, hsub1⟩ := ihn seen' hrem' c
                    obtain ⟨f2, s2, hk2, hsub2⟩ :=
                      ihc s1 (le_trans (remIds_mono hsub1) hrem')
                    refine ⟨max (f1 + 1) f2, s2, ?_, List.Subset.trans hsub1 hsub2⟩
                    have hgo1' : travGo h (max (f1 + 1) f2) c seen' = some s1 :=
                      travGo_fuel_mono h _ _ (le_max_left _ _) c seen' s1 hgo1
                    have hk2' : travKids h (max (f1 + 1) f2) cs' s1 = some s2 :=
                      travKids_fuel_mono h _ _ (le_max_right _ _) cs' s1 s2 hk2
                    rw [travKids, hgo1']
                    exact hk2'
              obtain ⟨fk, sk, hks, hsubk⟩ := hkids ch (d :: seen) hrem
              refine ⟨fk, sk, ?_, ?_⟩
              · simp only [travGo, hnode]
                rw [if_neg hext, if_neg hseen]
                exact hks
              · exact fun x hx => hsubk (List.mem_cons_of_mem d hx)

/-- C7: deep traversal clears the process-wide seen set at the start of
each top-level call (the result is independent of the prior content);
non-object/non-array values and non-extensible values are leaves; an
observed container whose own dep id is already in the seen set stops
without recursing into its children, and otherwise records the id before
recursing; the seen set only grows and never holds duplicates, so each
observed container is visited at most once per top-level call; and on a
heap whose containers are all observed — cyclic references included —
the traversal terminates (some fuel suffices). -/
theorem claim7_traverse_cycle_safe (h : List HNode) :
    (∀ fuel a p1 p2, traverseTop h fuel a p1 = traverseTop h fuel a p2) ∧
    (∀ fuel a seen, lookupNode h a = HNode.scalar →
      travGo h (fuel + 1) a seen = some seen) ∧
    (∀ fuel a seen ob ch, lookupNode h a = HNode.container ob false ch →
      travGo h (fuel + 1) a seen = some seen) ∧
    (∀ fuel a seen d ch, lookupNode h a = HNode.container (some d) true ch →
      d ∈ seen → travGo h (fuel + 1) a seen = some seen) ∧
    (∀ fuel a seen d ch, lookupNode h a = HNode.container (some d) true ch →
      d ∉ seen → travGo h (fuel + 1) a seen = travKids h fuel ch (d :: seen)) ∧
    (∀ fuel a seen s, travGo h fuel a seen = some s →
      seen ⊆ s ∧ (seen.Nodup → s.Nodup)) ∧
    (AllObserved h → ∀ a prior, ∃ fuel s, traverseTop h fuel a prior = some s) := by
  refine ⟨?_, ?_, ?_, ?_, ?_, ?_, ?_⟩
  · intro fuel a p1 p2
    rfl
  · intro fuel a seen hs
    simp [travGo, hs]
  · intro fuel a seen ob ch hs
    simp [travGo, hs]
  · intro fuel a seen d ch hs hd
    simp [travGo, hs, hd]
  · intro fuel a seen d ch hs hd
    simp [travGo, hs, hd]
  · exact fun fuel => (trav_seen h fuel).1
  · intro hobs a prior
    obtain ⟨f, s, hgo, _⟩ := trav_total h hobs (remIds h []) [] (le_refl _) a
    exact ⟨f + 1, s, hgo⟩

/-- Witness for C7 on the concrete cyclic heap: traversal terminates and
visits each container once. -/
theorem claim7_witness :
    AllObserved heapCyc ∧
    (∃ fuel s, traverseTop heapCyc fuel 0 [] = some s) ∧
    traverseTop heapCyc 3 0 [] = some [1, 0] := by
  have hobs : AllObserved heapCyc := by
    intro ob ext ch hm
    simp [heapCyc] at hm
    rcases hm with ⟨rfl, rfl, rfl⟩ | ⟨rfl, rfl, rfl⟩ <;> rfl
  refine ⟨hobs, (claim7_traverse_cycle_safe heapCyc).2.2.2.2.2.2 hobs 0 [], ?_⟩
  simp [traverseTop, travGo, travKids, heapCyc, lookupNode]

/-- Witness for C10: a concrete non-lazy construction evaluates once and
stores the getter result 1. -/
theorem claim10_witness :
    optLazy none = false ∧
    mkWatcher (fun _ => true) true ⟨[], false⟩ ExpOrFn.fn none 0 rs0 g0
      = Except.ok ⟨{ okWat (Watcher.get (freshWatcher none 0) rs0 g0) with
            value := JsValue.numV 1 }, ⟨[1], false⟩, 1,
          okSt (Watcher.get (freshWatcher none 0) rs0 g0) ⟩ ∧
    (okSt (Watcher.get (freshWatcher none 0) rs0 g0)).getterCalls = 1 ∧
    (okWat (Watcher.get (freshWatcher none 0) rs0 g0)).id = 1 := by
  have h := (claim10_construction_split (fun _ => true) true ⟨[], false⟩ none 0 rs0 g0).2
    rfl (JsValue.numV 1) (okWat (Watcher.get (freshWatcher none 0) rs0 g0))
    (okSt (Watcher.get (freshWatcher none 0) rs0 g0)) rfl
  exact ⟨rfl, h.1, h.2.1, h.2.2.1⟩

/-- Witness for C8 at a concrete unparsable path in dev mode. -/
theorem claim8_witness :
    parseNone 9 = false ∧
    ∃ r : MkResult, mkWatcher parseNone true ⟨[], false⟩ (ExpOrFn.path 9) none 0 rs0 g0
        = Except.ok r ∧
      r.watcher.getter = GetterKind.noopFallback ∧
      r.state.warnings = rs0.warnings + (if true then 1 else 0) ∧
      ∀ g' s', ∃ w1 s1, Watcher.get r.watcher s' g' = Except.ok (JsValue.undef, w1, s1) :=
  ⟨rfl, claim8_malformed_path parseNone true ⟨[], false⟩ 9 none 0 rs0 g0 rfl⟩
